import Mathlib

/-!
Shallow embedding of the `mysql-binlog-parser-rust` repository
(`src/event.rs`, `src/binlog_file.rs`, `src/errors.rs`) and proofs of the
specification claims about it.

Modelling conventions:
* A byte is a `Nat` (meaningful values are `< 256`; wire values produced by
  the encoders below always are).
* A byte source (`std::io::Read`) is a `Reader`: an immutable byte list plus
  a cursor position.  `Read::read_exact` either yields the next `n` bytes and
  advances the cursor, or fails when fewer than `n` bytes remain.
* Rust `Result` together with the possibility of a panic is modelled by
  `PResult`: `ok`, `err` (a returned `Err`), and `panicked` (a Rust panic,
  i.e. `.unwrap()` on `Err`/`None`, an out-of-bounds slice, or an arithmetic
  underflow of `u32` subtraction, which panics in debug builds).
* Machine integers are `Nat`s; the decoders read little-endian values from
  byte lists, so the decoded fields are bounded by construction.
-/

namespace BinlogParser

/-- Little-endian value of a byte list (first byte least significant). -/
def leVal : List Nat → Nat
  | [] => 0
  | b :: rest => b + 256 * leVal rest

/-- Little-endian 2-byte encoding of `x % 2^16`. -/
def le2 (x : Nat) : List Nat := [x % 256, x / 256 % 256]

/-- Little-endian 4-byte encoding of `x % 2^32`. -/
def le4 (x : Nat) : List Nat :=
  [x % 256, x / 256 % 256, x / 256 ^ 2 % 256, x / 256 ^ 3 % 256]

/-- A positioned byte source: models the `Seek + Read` collaborator. -/
structure Reader where
  bytes : List Nat
  pos : Nat
deriving DecidableEq

/-- Models `Read::read_exact` into an `n`-byte buffer: succeeds with exactly
the next `n` bytes and the advanced reader iff at least `n` bytes remain. -/
def readExact (r : Reader) (n : Nat) : Option (List Nat × Reader) :=
  if n ≤ (r.bytes.drop r.pos).length then
    some ((r.bytes.drop r.pos).take n, ⟨r.bytes, r.pos + n⟩)
  else none

/-- The `TypeCode` enum of `src/event.rs`. -/
inductive TypeCode where
  | UnknownEvent
  | StartEventV3
  | QueryEvent
  | StopEvent
  | RotateEvent
  | IntvarEvent
  | LoadEvent
  | SlaveEvent
  | CreateFileEvent
  | AppendBlockEvent
  | ExecLoadEvent
  | DeleteFileEvent
  | NewLoadEvent
  | RandEvent
  | UserVarEvent
  | FormatDescriptionEvent
  | XidEvent
  | BeginLoadQueryEvent
  | ExecuteLoadQueryEvent
  | TableMapEvent
  | PreGaWriteRowsEvent
  | PreGaUpdateRowsEvent
  | PreGaDeleteRowsEvent
  | WriteRowsEventV1
  | UpdateRowsEventV1
  | DeleteRowsEventV1
  | IncidentEvent
  | HeartbeatLogEvent
  | IgnorableLogEvent
  | RowsQueryLogEvent
  | WriteRowsEventV2
  | UpdateRowsEventV2
  | DeleteRowsEventV2
  | GtidLogEvent
  | AnonymousGtidLogEvent
  | PreviousGtidsLogEvent
deriving DecidableEq

/-- `TypeCode::from_byte` of `src/event.rs`: total match on the wire byte
with a catch-all `_ => UnknownEvent` arm. -/
def TypeCode.from_byte (b : Nat) : TypeCode :=
  match b with
  | 0 => TypeCode.UnknownEvent
  | 1 => TypeCode.StartEventV3
  | 2 => TypeCode.QueryEvent
  | 3 => TypeCode.StopEvent
  | 4 => TypeCode.RotateEvent
  | 5 => TypeCode.IntvarEvent
  | 6 => TypeCode.LoadEvent
  | 7 => TypeCode.SlaveEvent
  | 8 => TypeCode.CreateFileEvent
  | 9 => TypeCode.AppendBlockEvent
  | 10 => TypeCode.ExecLoadEvent
  | 11 => TypeCode.DeleteFileEvent
  | 12 => TypeCode.NewLoadEvent
  | 13 => TypeCode.RandEvent
  | 14 => TypeCode.UserVarEvent
  | 15 => TypeCode.FormatDescriptionEvent
  | 16 => TypeCode.XidEvent
  | 17 => TypeCode.BeginLoadQueryEvent
  | 18 => TypeCode.ExecuteLoadQueryEvent
  | 19 => TypeCode.TableMapEvent
  | 20 => TypeCode.PreGaWriteRowsEvent
  | 21 => TypeCode.PreGaUpdateRowsEvent
  | 22 => TypeCode.PreGaDeleteRowsEvent
  | 23 => TypeCode.WriteRowsEventV1
  | 24 => TypeCode.UpdateRowsEventV1
  | 25 => TypeCode.DeleteRowsEventV1
  | 26 => TypeCode.IncidentEvent
  | 27 => TypeCode.HeartbeatLogEvent
  | 28 => TypeCode.IgnorableLogEvent
  | 29 => TypeCode.RowsQueryLogEvent
  | 30 => TypeCode.WriteRowsEventV2
  | 31 => TypeCode.UpdateRowsEventV2
  | 32 => TypeCode.DeleteRowsEventV2
  | 33 => TypeCode.GtidLogEvent
  | 34 => TypeCode.AnonymousGtidLogEvent
  | 35 => TypeCode.PreviousGtidsLogEvent
  | _ => TypeCode.UnknownEvent

/-- `EventParseError` of `src/errors.rs`: one variant wrapping an I/O error
(the wrapped `std::io::Error` detail is not modelled). -/
inductive EventParseError where
  | io
deriving DecidableEq

/-- `BinlogFileError` of `src/errors.rs`.  `BadMagic` carries the 4 observed
bytes; `Io` is the `#[from] std::io::Error` variant that `?` produces. -/
inductive BinlogFileError where
  | EventParseError : EventParseError → BinlogFileError
  | BadMagic : List Nat → BinlogFileError
  | OpenError : BinlogFileError
  | Io : BinlogFileError
deriving DecidableEq

/-- Outcome of running a Rust function returning `Result<α, EventParseError>`:
it returns `Ok`, returns `Err`, or panics (`unwrap` on a failed read,
out-of-bounds slice index, or debug-mode integer underflow). -/
inductive PResult (α : Type) where
  | ok : α → PResult α
  | err : EventParseError → PResult α
  | panicked : PResult α
deriving DecidableEq

/-- The `Event` struct of `src/event.rs`. -/
structure Event where
  timestamp : Nat
  type_code : TypeCode
  server_id : Nat
  event_length : Nat
  next_position : Nat
  flags : Nat
  data : List Nat
  offset : Nat
deriving DecidableEq

/-- The `EventData` enum of `src/event.rs`; `server_version` is the UTF-8
byte content of the Rust `String`. -/
inductive EventData where
  | FormatDescriptionEvent
      (binlog_version : Nat) (server_version : List Nat)
      (create_timestamp : Nat) (common_header_len : Nat)
deriving DecidableEq

/-- `Event::parse` of `src/event.rs`.  Reads a 19-byte header (failure is
returned as `Err`), decodes the little-endian fields from it (the cursor
reads over the 19-byte array cannot fail), computes
`data_length = event_length - 19` — an unchecked `u32` subtraction that
panics on underflow in debug builds — and then reads the body with
`read_exact(..).unwrap()`, which panics on a short read. -/
def Event.parse (reader : Reader) (offset : Nat) : PResult Event :=
  match readExact reader 19 with
  | none => PResult.err EventParseError.io
  | some (event_header, r1) =>
    let timestamp := leVal (event_header.take 4)
    let type_code := TypeCode.from_byte (event_header.getD 4 0)
    let server_id := leVal ((event_header.drop 5).take 4)
    let event_length := leVal ((event_header.drop 9).take 4)
    let next_position := leVal ((event_header.drop 13).take 4)
    let flags := leVal ((event_header.drop 17).take 2)
    if event_length < 19 then PResult.panicked
    else
      let data_length := event_length - 19
      match readExact r1 data_length with
      | none => PResult.panicked
      | some (data, _) =>
        PResult.ok
          { timestamp, type_code, server_id, event_length,
            next_position, flags, data, offset }

/-- Models `Iterator::position(|&u| u == 0)` over a byte list: index of the
first zero byte, if any. -/
def positionZero : List Nat → Option Nat
  | [] => none
  | b :: rest => if b = 0 then some 0 else (positionZero rest).map (· + 1)

/-- Whether a continuation byte is in `0x80 ..= 0xBF`. -/
def contByte (b : Nat) : Bool := 0x80 ≤ b && b ≤ 0xBF

/-- UTF-8 validity of a byte list, as checked by `std::str::from_utf8`. -/
def utf8Valid : List Nat → Bool
  | [] => true
  | b :: rest =>
    if b < 0x80 then utf8Valid rest
    else if 0xC2 ≤ b && b ≤ 0xDF then
      match rest with
      | c1 :: r => contByte c1 && utf8Valid r
      | [] => false
    else if b = 0xE0 then
      match rest with
      | c1 :: c2 :: r =>
        (0xA0 ≤ c1 && c1 ≤ 0xBF) && contByte c2 && utf8Valid r
      | _ => false
    else if (0xE1 ≤ b && b ≤ 0xEC) || b = 0xEE || b = 0xEF then
      match rest with
      | c1 :: c2 :: r => contByte c1 && contByte c2 && utf8Valid r
      | _ => false
    else if b = 0xED then
      match rest with
      | c1 :: c2 :: r =>
        (0x80 ≤ c1 && c1 ≤ 0x9F) && contByte c2 && utf8Valid r
      | _ => false
    else if b = 0xF0 then
      match rest with
      | c1 :: c2 :: c3 :: r =>
        (0x90 ≤ c1 && c1 ≤ 0xBF) && contByte c2 && contByte c3 && utf8Valid r
      | _ => false
    else if 0xF1 ≤ b && b ≤ 0xF3 then
      match rest with
      | c1 :: c2 :: c3 :: r =>
        contByte c1 && contByte c2 && contByte c3 && utf8Valid r
      | _ => false
    else if b = 0xF4 then
      match rest with
      | c1 :: c2 :: c3 :: r =>
        (0x80 ≤ c1 && c1 ≤ 0x8F) && contByte c2 && contByte c3 && utf8Valid r
      | _ => false
    else false

/-- `Event::parse_event_data_by_type_code` of `src/event.rs`.  For
`FormatDescriptionEvent`: `read_u16` at 0 (`unwrap` panics if fewer than 2
bytes), the slice `data[2..52]` (panics if `data.len() < 52`), the NUL scan
(`position(..).unwrap()` panics if no NUL in the window),
`from_utf8(..).unwrap()` (panics on invalid UTF-8), `read_u32` at 52 and
`read_u8` at 56 (`unwrap` panics past the end).  Every other type code
returns `Ok(None)`. -/
def Event.parse_event_data_by_type_code (type_code : TypeCode)
    (data : List Nat) : PResult (Option EventData) :=
  match type_code with
  | TypeCode.FormatDescriptionEvent =>
    if data.length < 2 then PResult.panicked
    else
      let binlog_version := leVal (data.take 2)
      if data.length < 52 then PResult.panicked
      else
        match positionZero ((data.drop 2).take 50) with
        | none => PResult.panicked
        | some i =>
          let server_version := ((data.drop 2).take 50).take i
          if utf8Valid server_version then
            if data.length < 56 then PResult.panicked
            else
              let create_timestamp := leVal ((data.drop 52).take 4)
              if data.length < 57 then PResult.panicked
              else
                let common_header_len := data.getD 56 0
                PResult.ok (some (EventData.FormatDescriptionEvent
                  binlog_version server_version create_timestamp
                  common_header_len))
          else PResult.panicked
  | _ => PResult.ok none

/-- The `next_position()` accessor of `src/event.rs`, which returns
`u64::from(self.next_position)`; zero-extending a 32-bit value to 64 bits is
the identity on its numeric value. -/
def Event.next_position_u64 (e : Event) : Nat := e.next_position

/-- The binlog magic marker `[0xfe, 0x62, 0x69, 0x6e]` ("\xfebin"). -/
def magicBytes : List Nat := [0xfe, 0x62, 0x69, 0x6e]

/-- The `BinlogFile` struct of `src/binlog_file.rs`. -/
structure BinlogFile where
  file : Reader
  event_set_start_offset : Nat
deriving DecidableEq

/-- `BinlogFile::from_reader` of `src/binlog_file.rs`: reads 4 bytes
(`?` turns a read failure into `BinlogFileError::Io`), compares them against
the magic, and returns `BadMagic` with the observed bytes on mismatch.  The
second component is the reader's state after the call (unchanged when the
read itself failed; advanced past the 4 bytes otherwise). -/
def BinlogFile.from_reader (reader : Reader) :
    Except BinlogFileError BinlogFile × Reader :=
  match readExact reader 4 with
  | none => (Except.error BinlogFileError.Io, reader)
  | some (magic_number_bytes, r1) =>
    if magic_number_bytes = magicBytes then
      (Except.ok { file := r1, event_set_start_offset := 4 }, r1)
    else
      (Except.error (BinlogFileError.BadMagic magic_number_bytes), r1)


/-! ## Helper lemmas -/

/-- Decoding the 4-byte little-endian encoding gives the value mod `2^32`. -/
theorem leVal_le4 (x : Nat) : leVal (le4 x) = x % 2 ^ 32 := by
  simp [le4, leVal]
  omega

/-- Decoding the 2-byte little-endian encoding gives the value mod `2^16`. -/
theorem leVal_le2 (x : Nat) : leVal (le2 x) = x % 2 ^ 16 := by
  simp [le2, leVal]
  omega

/-- A little-endian value read from at most `n` bytes is below `256 ^ n`. -/
theorem leVal_lt (l : List Nat) (n : Nat) (hlen : l.length ≤ n)
    (hb : ∀ b ∈ l, b < 256) : leVal l < 256 ^ n := by
  induction l generalizing n with
  | nil => simp [leVal]
  | cons b rest ih =>
    cases n with
    | zero => simp at hlen
    | succ m =>
      have hb0 : b < 256 := hb b (by simp)
      have hrest := ih m (by simpa using hlen) (fun x hx => hb x (by simp [hx]))
      simp only [leVal, pow_succ]
      omega

/-- The wire encoding of a 19-byte event header, per the file-format section
of the specification: little-endian `u32 timestamp`, `u8 type_code`,
`u32 server_id`, `u32 event_length`, `u32 next_position`, `u16 flags`. -/
def encodeHeader (T C S L P F : Nat) : List Nat :=
  le4 T ++ [C] ++ le4 S ++ le4 L ++ le4 P ++ le2 F

theorem encodeHeader_length (T C S L P F : Nat) :
    (encodeHeader T C S L P F).length = 19 := by
  simp [encodeHeader, le4, le2]

/-- Extracting each header field from the encoded header. -/
theorem encodeHeader_fields (T C S L P F : Nat) :
    (encodeHeader T C S L P F).take 4 = le4 T ∧
    (encodeHeader T C S L P F).getD 4 0 = C ∧
    ((encodeHeader T C S L P F).drop 5).take 4 = le4 S ∧
    ((encodeHeader T C S L P F).drop 9).take 4 = le4 L ∧
    ((encodeHeader T C S L P F).drop 13).take 4 = le4 P ∧
    ((encodeHeader T C S L P F).drop 17).take 2 = le2 F := by
  refine ⟨?_, ?_, ?_, ?_, ?_, ?_⟩ <;> simp [encodeHeader, le4, le2]

/-- The first zero byte of a zero-free list padded with at least one zero is
right after the zero-free part. -/
theorem positionZero_append_replicate (sv : List Nat) (k : Nat) (hk : 0 < k)
    (hnz : ∀ b ∈ sv, b ≠ 0) :
    positionZero (sv ++ List.replicate k 0) = some sv.length := by
  induction sv with
  | nil =>
    cases k with
    | zero => omega
    | succ n => simp [positionZero, List.replicate]
  | cons b rest ih =>
    have hb : b ≠ 0 := hnz b (by simp)
    have := ih (fun x hx => hnz x (by simp [hx]))
    simp [positionZero, hb, this]

/-- UTF-8 bytes of the string `5.7.26-log`. -/
def serverVersionBytes : List Nat :=
  [0x35, 0x2e, 0x37, 0x2e, 0x32, 0x36, 0x2d, 0x6c, 0x6f, 0x67]

/-! ## Claim theorems -/

/-- Claim C1.  The claim says `Event::parse` returns an `EventParseError`
whenever the decoded `event_length` is below 19 and never underflows the
subtraction `event_length - 19`.  The code computes the unchecked `u32`
subtraction `(event_length - 19) as usize` and then unwraps the body read,
so on a header whose `event_length` field is 0 it panics (debug-build
underflow; in release it wraps and feeds a wrapped-around length to
`vec![0u8; ..]`) instead of returning an error: evaluated at the all-zero
19-byte header, the parse panics and is not an `Err`. -/
theorem parse_underflow_panics :
    Event.parse ⟨List.replicate 19 0, 0⟩ 0 = PResult.panicked ∧
    (∀ er : EventParseError,
      Event.parse ⟨List.replicate 19 0, 0⟩ 0 ≠ PResult.err er) := by
  refine ⟨by decide, ?_⟩
  intro er
  cases er
  decide

/-- Claim C2.  The claim says a truncated source always yields a parse
failure rather than a panic.  The header half holds: with fewer than 19
bytes remaining, `Event::parse` returns `Err` (first conjunct, on the empty
source).  But with a well-formed header announcing `event_length = 20` and
no body byte remaining, the body read is `read_exact(..).unwrap()`, which
panics instead of returning an error (second conjunct). -/
theorem parse_truncated_behavior :
    Event.parse ⟨[], 0⟩ 0 = PResult.err EventParseError.io ∧
    Event.parse ⟨[0, 0, 0, 0, 0, 0, 0, 0, 0, 20, 0, 0, 0, 0, 0, 0, 0, 0, 0], 0⟩ 0 =
      PResult.panicked := by
  decide

/-- Claim C3.  The claim (and the specification) require a typed decode
failure when the 50-byte server-version window has no NUL or holds invalid
UTF-8.  The code instead panics: `position(..).unwrap()` on a window with
no NUL (first conjunct, 57 bytes all `1`), and `from_utf8(..).unwrap()` on
an invalid UTF-8 prefix (second conjunct, byte `0xFF` before the NUL). -/
theorem parse_fde_malformed_panics :
    Event.parse_event_data_by_type_code TypeCode.FormatDescriptionEvent
      (List.replicate 57 1) = PResult.panicked ∧
    Event.parse_event_data_by_type_code TypeCode.FormatDescriptionEvent
      ([0, 0, 0xFF, 0] ++ List.replicate 53 0) = PResult.panicked := by
  decide

/-- Claim C4.  On a source with at least 4 readable bytes,
`BinlogFile::from_reader` succeeds iff those bytes are the magic
`FE 62 69 6E`, and then `event_set_start_offset = 4`; on mismatch it fails
with `BadMagic` carrying exactly the 4 observed bytes; on a short read it
fails with the I/O-kind error, which is distinct from every `BadMagic`. -/
theorem from_reader_spec (r : Reader) :
    (4 ≤ (r.bytes.drop r.pos).length →
      ((r.bytes.drop r.pos).take 4 = magicBytes →
        (BinlogFile.from_reader r).1 =
          Except.ok ⟨⟨r.bytes, r.pos + 4⟩, 4⟩) ∧
      ((r.bytes.drop r.pos).take 4 ≠ magicBytes →
        (BinlogFile.from_reader r).1 =
          Except.error (BinlogFileError.BadMagic ((r.bytes.drop r.pos).take 4)))) ∧
    ((r.bytes.drop r.pos).length < 4 →
      (BinlogFile.from_reader r).1 = Except.error BinlogFileError.Io) ∧
    (∀ bs : List Nat, BinlogFileError.Io ≠ BinlogFileError.BadMagic bs) := by
  refine ⟨?_, ?_, fun bs => by simp⟩
  · intro hlen
    unfold BinlogFile.from_reader readExact
    rw [if_pos hlen]
    refine ⟨fun hmagic => ?_, fun hmagic => ?_⟩ <;> simp [hmagic]
  · intro hlen
    unfold BinlogFile.from_reader readExact
    rw [if_neg (by omega)]

theorem from_reader_spec_witness :
    (BinlogFile.from_reader ⟨[0xfe, 0x62, 0x69, 0x6e, 7], 0⟩).1 =
      Except.ok ⟨⟨[0xfe, 0x62, 0x69, 0x6e, 7], 4⟩, 4⟩ ∧
    (BinlogFile.from_reader ⟨[1, 2, 3, 4], 0⟩).1 =
      Except.error (BinlogFileError.BadMagic [1, 2, 3, 4]) ∧
    (BinlogFile.from_reader ⟨[0xfe], 0⟩).1 = Except.error BinlogFileError.Io := by
  refine ⟨?_, ?_, ?_⟩
  · simpa using
      ((from_reader_spec ⟨[0xfe, 0x62, 0x69, 0x6e, 7], 0⟩).1 (by decide)).1 (by decide)
  · simpa using
      ((from_reader_spec ⟨[1, 2, 3, 4], 0⟩).1 (by decide)).2 (by decide)
  · exact (from_reader_spec ⟨[0xfe], 0⟩).2.1 (by decide)

/-- Claim C5.  `TypeCode::from_byte` is total: each of the bytes 0–35 maps
to its documented named variant and every byte from 36 up maps to
`UnknownEvent`. -/
theorem from_byte_table :
    (TypeCode.from_byte 0 = TypeCode.UnknownEvent ∧
     TypeCode.from_byte 1 = TypeCode.StartEventV3 ∧
     TypeCode.from_byte 2 = TypeCode.QueryEvent ∧
     TypeCode.from_byte 3 = TypeCode.StopEvent ∧
     TypeCode.from_byte 4 = TypeCode.RotateEvent ∧
     TypeCode.from_byte 5 = TypeCode.IntvarEvent ∧
     TypeCode.from_byte 6 = TypeCode.LoadEvent ∧
     TypeCode.from_byte 7 = TypeCode.SlaveEvent ∧
     TypeCode.from_byte 8 = TypeCode.CreateFileEvent ∧
     TypeCode.from_byte 9 = TypeCode.AppendBlockEvent ∧
     TypeCode.from_byte 10 = TypeCode.ExecLoadEvent ∧
     TypeCode.from_byte 11 = TypeCode.DeleteFileEvent ∧
     TypeCode.from_byte 12 = TypeCode.NewLoadEvent ∧
     TypeCode.from_byte 13 = TypeCode.RandEvent ∧
     TypeCode.from_byte 14 = TypeCode.UserVarEvent ∧
     TypeCode.from_byte 15 = TypeCode.FormatDescriptionEvent ∧
     TypeCode.from_byte 16 = TypeCode.XidEvent ∧
     TypeCode.from_byte 17 = TypeCode.BeginLoadQueryEvent ∧
     TypeCode.from_byte 18 = TypeCode.ExecuteLoadQueryEvent ∧
     TypeCode.from_byte 19 = TypeCode.TableMapEvent ∧
     TypeCode.from_byte 20 = TypeCode.PreGaWriteRowsEvent ∧
     TypeCode.from_byte 21 = TypeCode.PreGaUpdateRowsEvent ∧
     TypeCode.from_byte 22 = TypeCode.PreGaDeleteRowsEvent ∧
     TypeCode.from_byte 23 = TypeCode.WriteRowsEventV1 ∧
     TypeCode.from_byte 24 = TypeCode.UpdateRowsEventV1 ∧
     TypeCode.from_byte 25 = TypeCode.DeleteRowsEventV1 ∧
     TypeCode.from_byte 26 = TypeCode.IncidentEvent ∧
     TypeCode.from_byte 27 = TypeCode.HeartbeatLogEvent ∧
     TypeCode.from_byte 28 = TypeCode.IgnorableLogEvent ∧
     TypeCode.from_byte 29 = TypeCode.RowsQueryLogEvent ∧
     TypeCode.from_byte 30 = TypeCode.WriteRowsEventV2 ∧
     TypeCode.from_byte 31 = TypeCode.UpdateRowsEventV2 ∧
     TypeCode.from_byte 32 = TypeCode.DeleteRowsEventV2 ∧
     TypeCode.from_byte 33 = TypeCode.GtidLogEvent ∧
     TypeCode.from_byte 34 = TypeCode.AnonymousGtidLogEvent ∧
     TypeCode.from_byte 35 = TypeCode.PreviousGtidsLogEvent) ∧
    ∀ b : Nat, 36 ≤ b → TypeCode.from_byte b = TypeCode.UnknownEvent := by
  refine ⟨by decide, ?_⟩
  intro b hge
  obtain ⟨k, rfl⟩ : ∃ k, b = k + 36 := ⟨b - 36, by omega⟩
  rfl

theorem from_byte_table_witness :
    TypeCode.from_byte 100 = TypeCode.UnknownEvent :=
  from_byte_table.2 100 (by decide)

/-- Claim C6.  Parsing a well-formed input — the 19-byte little-endian
header encoding of `(T, C, S, L, P, F)` with `L ≥ 19` followed by at least
`L - 19` body bytes — at caller-supplied offset `O` succeeds and returns the
event whose fields are exactly `T`, `TypeCode.from_byte C`, `S`, `L`, `P`,
`F`, the first `L - 19` body bytes, and `O`. -/
theorem parse_wellformed (T C S L P F O : Nat) (body : List Nat)
    (hT : T < 2 ^ 32) (hC : C < 256) (hS : S < 2 ^ 32)
    (hL19 : 19 ≤ L) (hL : L < 2 ^ 32) (hP : P < 2 ^ 32) (hF : F < 2 ^ 16)
    (hbody : L - 19 ≤ body.length) :
    Event.parse ⟨encodeHeader T C S L P F ++ body, 0⟩ O =
      PResult.ok ⟨T, TypeCode.from_byte C, S, L, P, F, body.take (L - 19), O⟩ := by
  have hlen : (encodeHeader T C S L P F ++ body).length = 19 + body.length := by
    simp [encodeHeader_length]
  obtain ⟨h1, h2, h3, h4, h5, h6⟩ := encodeHeader_fields T C S L P F
  unfold Event.parse readExact
  simp only [List.drop_zero, hlen]
  rw [if_pos (by omega)]
  have htake : (encodeHeader T C S L P F ++ body).take 19 = encodeHeader T C S L P F :=
    List.take_left' (encodeHeader_length T C S L P F)
  have hdrop : (encodeHeader T C S L P F ++ body).drop 19 = body :=
    List.drop_left' (encodeHeader_length T C S L P F)
  simp only [htake, h1, h2, h3, h4, h5, h6, leVal_le4, leVal_le2,
    Nat.mod_eq_of_lt hT, Nat.mod_eq_of_lt hS, Nat.mod_eq_of_lt hL,
    Nat.mod_eq_of_lt hP, Nat.mod_eq_of_lt hF]
  rw [if_neg (by omega)]
  simp only [Nat.zero_add, hdrop]
  rw [if_pos hbody]

theorem parse_wellformed_witness :
    Event.parse ⟨encodeHeader 1 15 2 20 3 4 ++ [9], 0⟩ 7 =
      PResult.ok ⟨1, TypeCode.from_byte 15, 2, 20, 3, 4, [9].take (20 - 19), 7⟩ :=
  parse_wellformed 1 15 2 20 3 4 7 [9] (by decide) (by decide) (by decide)
    (by decide) (by decide) (by decide) (by decide) (by decide)

/-- Claim C7.  A `FormatDescriptionEvent` body laid out as little-endian
`u16 binlog_version`, a 50-byte field holding a NUL-padded zero-free valid
UTF-8 server-version string, little-endian `u32 create_timestamp` and
`u8 common_header_len` decodes to `Ok(Some(..))` with exactly those four
values, the string trimmed at the first NUL. -/
theorem parse_fde (bv ts chl : Nat) (sv : List Nat)
    (hbv : bv < 2 ^ 16) (hts : ts < 2 ^ 32) (hchl : chl < 256)
    (hsv : sv.length ≤ 49) (hnz : ∀ b ∈ sv, b ≠ 0)
    (hutf : utf8Valid sv = true) :
    Event.parse_event_data_by_type_code TypeCode.FormatDescriptionEvent
      (le2 bv ++ (sv ++ List.replicate (50 - sv.length) 0) ++ le4 ts ++ [chl]) =
      PResult.ok (some (EventData.FormatDescriptionEvent bv sv ts chl)) := by
  set field := sv ++ List.replicate (50 - sv.length) 0 with hfield
  have hfieldlen : field.length = 50 := by
    simp [hfield]
    omega
  set data := le2 bv ++ field ++ le4 ts ++ [chl] with hdata
  have hdatalen : data.length = 57 := by
    simp [hdata, le2, le4, hfieldlen]
  have hassoc2 : data = le2 bv ++ (field ++ (le4 ts ++ [chl])) := by
    simp [hdata]
  have hdrop2 : data.drop 2 = field ++ (le4 ts ++ [chl]) := by
    rw [hassoc2]
    exact List.drop_left' (show (le2 bv).length = 2 by simp [le2])
  have htake50 : (data.drop 2).take 50 = field := by
    rw [hdrop2]
    exact List.take_left' hfieldlen
  have hpos : positionZero field = some sv.length := by
    rw [hfield]
    exact positionZero_append_replicate sv _ (by omega) hnz
  have hsv' : field.take sv.length = sv := by
    rw [hfield]
    exact List.take_left' rfl
  have hassoc52 : data = (le2 bv ++ field) ++ (le4 ts ++ [chl]) := by
    simp [hdata, List.append_assoc]
  have hdrop52 : data.drop 52 = le4 ts ++ [chl] := by
    rw [hassoc52]
    exact List.drop_left' (show (le2 bv ++ field).length = 52 by simp [le2, hfieldlen])
  have htake4 : (data.drop 52).take 4 = le4 ts := by
    rw [hdrop52]
    exact List.take_left' (show (le4 ts).length = 4 by simp [le4])
  have hgetD : data.getD 56 0 = chl := by
    have hassoc56 : data = ((le2 bv ++ field) ++ le4 ts) ++ [chl] := by
      simp [hdata]
    have h56 : data.drop 56 = [chl] := by
      rw [hassoc56]
      exact List.drop_left'
        (show ((le2 bv ++ field) ++ le4 ts).length = 56 by simp [le2, le4, hfieldlen])
    have hsplit : data.getD 56 0 = (data.drop 56).getD 0 0 := by
      simp [List.getD, List.getElem?_drop]
    rw [hsplit, h56]
    rfl
  have htake2 : data.take 2 = le2 bv := by
    rw [hassoc2]
    exact List.take_left' (show (le2 bv).length = 2 by simp [le2])
  unfold Event.parse_event_data_by_type_code
  simp only [hdatalen, htake50, hpos, hsv', hutf, htake2, htake4, hgetD,
    leVal_le2, leVal_le4, Nat.mod_eq_of_lt hbv, Nat.mod_eq_of_lt hts]
  norm_num

theorem parse_fde_witness :
    Event.parse_event_data_by_type_code TypeCode.FormatDescriptionEvent
      (le2 4 ++ (serverVersionBytes ++ List.replicate 40 0) ++ le4 1000 ++ [19]) =
      PResult.ok (some (EventData.FormatDescriptionEvent 4 serverVersionBytes 1000 19)) := by
  have h := parse_fde 4 1000 19 serverVersionBytes (by decide) (by decide)
    (by decide) (by decide) (by decide) (by decide)
  simpa [serverVersionBytes] using h

/-- Claim C8.  For every type code other than `FormatDescriptionEvent` and
every body, `parse_event_data_by_type_code` returns `Ok(None)`. -/
theorem parse_event_data_unmodeled (tc : TypeCode) (data : List Nat)
    (h : tc ≠ TypeCode.FormatDescriptionEvent) :
    Event.parse_event_data_by_type_code tc data = PResult.ok none := by
  cases tc <;> first | rfl | exact absurd rfl h

theorem parse_event_data_unmodeled_witness :
    Event.parse_event_data_by_type_code TypeCode.QueryEvent [1, 2, 3] =
      PResult.ok none :=
  parse_event_data_unmodeled TypeCode.QueryEvent [1, 2, 3] (by decide)

/-- Claim C9.  For every successfully parsed event (from a source of genuine
bytes, each below 256), the `next_position()` accessor returns the
zero-extended 32-bit wire field, whose value is below `2^32`. -/
theorem next_position_spec (r : Reader) (O : Nat) (e : Event)
    (hb : ∀ b ∈ r.bytes, b < 256)
    (h : Event.parse r O = PResult.ok e) :
    e.next_position_u64 = e.next_position ∧ e.next_position < 2 ^ 32 := by
  refine ⟨rfl, ?_⟩
  unfold Event.parse at h
  cases hre : readExact r 19 with
  | none => rw [hre] at h; simp at h
  | some v =>
    obtain ⟨hdr, r1⟩ := v
    rw [hre] at h
    simp only at h
    have hhdr : hdr = (r.bytes.drop r.pos).take 19 := by
      unfold readExact at hre
      split at hre
      · injection hre with hre'
        injection hre' with hh1 hh2
        exact hh1.symm
      · cases hre
    split at h
    · cases h
    · split at h
      · cases h
      · cases h
        have hmem : ∀ b ∈ (hdr.drop 13).take 4, b < 256 := by
          intro b hbmem
          apply hb
          have hm1 : b ∈ hdr.drop 13 := List.take_subset _ _ hbmem
          have hm2 : b ∈ hdr := List.drop_subset _ _ hm1
          rw [hhdr] at hm2
          have hm3 : b ∈ r.bytes.drop r.pos := List.take_subset _ _ hm2
          exact List.drop_subset _ _ hm3
        have hlt : leVal ((hdr.drop 13).take 4) < 256 ^ 4 :=
          leVal_lt _ 4 (by simp) hmem
        simpa using hlt

theorem next_position_spec_witness :
    (⟨0, TypeCode.UnknownEvent, 0, 19, 0, 0, [], 0⟩ : Event).next_position_u64 =
      (⟨0, TypeCode.UnknownEvent, 0, 19, 0, 0, [], 0⟩ : Event).next_position ∧
    (⟨0, TypeCode.UnknownEvent, 0, 19, 0, 0, [], 0⟩ : Event).next_position < 2 ^ 32 :=
  next_position_spec
    ⟨[0, 0, 0, 0, 0, 0, 0, 0, 0, 19, 0, 0, 0, 0, 0, 0, 0, 0, 0], 0⟩ 0
    ⟨0, TypeCode.UnknownEvent, 0, 19, 0, 0, [], 0⟩ (by decide) (by decide)

/-- Claim C10.  On a source with at least 4 readable bytes,
`BinlogFile::from_reader` consumes exactly 4 bytes and no more — on success
and on a magic mismatch alike, the source is left positioned immediately
past the 4 bytes that were read, with its contents untouched. -/
theorem from_reader_consumes_four (r : Reader)
    (h : 4 ≤ (r.bytes.drop r.pos).length) :
    (BinlogFile.from_reader r).2.bytes = r.bytes ∧
    (BinlogFile.from_reader r).2.pos = r.pos + 4 := by
  unfold BinlogFile.from_reader readExact
  rw [if_pos h]
  by_cases hm : (r.bytes.drop r.pos).take 4 = magicBytes <;> simp [hm]

theorem from_reader_consumes_four_witness :
    (BinlogFile.from_reader ⟨[1, 2, 3, 4, 5], 0⟩).2.bytes = [1, 2, 3, 4, 5] ∧
    (BinlogFile.from_reader ⟨[1, 2, 3, 4, 5], 0⟩).2.pos = 0 + 4 :=
  from_reader_consumes_four ⟨[1, 2, 3, 4, 5], 0⟩ (by decide)

end BinlogParser
